import Mathlib

/-!
Verification of the CAM (Categorical Abstract Machine) pipeline repository.

The repository contains several overlapping implementations:
* `cam_new.cpp`, first variant: parser, named AST, de Bruijn resolver,
  depth-checked compiler, and a machine (`CAMMachine::executeCommand` /
  `CAMMachine::execute`) over integer values — embedded in namespace `CamNew`.
* `cam_new.cpp`, second variant: named AST, resolver, compiler without a
  depth check, and a machine (`CAMMachine::step` / `CAMMachine::run`) —
  embedded in namespace `CamNew2`.
* `cam.cpp` / `cam.hpp`: simply-typed expressions, unification-based type
  inference, substitution, reduction and normalization — embedded in
  namespace `Cam`.

All fallible C++ code (functions that `throw`) is embedded with
`Except String`; unbounded loops (`CAMMachine::execute`, `normalize`,
the recursive-descent parser, substitution chasing) take an explicit fuel
argument, which changes nothing on the concrete runs considered here.
-/

/-- Boolean success test for `Except`, used to state that a computation
succeeds or fails without fixing the error message. -/
def okB {ε α : Type} : Except ε α → Bool
  | .ok _ => true
  | .error _ => false

namespace CamNew

/-- AST of the first `cam_new.cpp` variant: `Variable` (with a
`deBruijnIdx` field initialized to -1 by the parser), `Number`, `Lambda`,
`Application`, `BinaryOp`. -/
inductive Term where
  | Variable (name : String) (deBruijnIdx : Int)
  | Number (value : Int)
  | Lambda (param : String) (body : Term)
  | Application (func arg : Term)
  | BinaryOp (op : Char) (left right : Term)
deriving DecidableEq, Repr

/-- Lookup in the name-to-level environment. The C++ code uses an
`unordered_map` updated by assignment; an association list read
first-match-wins has the same lookup behaviour, with assignment modelled
as prepending. -/
def envLookup (env : List (String × Int)) (name : String) : Option Int :=
  match env with
  | [] => none
  | (k, v) :: rest => if k = name then some v else envLookup rest name

/-- `Term::toDeBruijn(level, env)`: a `Variable` bound at level `l`
receives index `level - l - 1`; an unbound name throws; `Lambda` records
its parameter at the current level and descends at `level + 1`. -/
def Term.toDeBruijn : Term → Int → List (String × Int) → Except String Term
  | .Variable name _, level, env =>
      match envLookup env name with
      | some l => .ok (.Variable name (level - l - 1))
      | none => .error ("Unbound variable: " ++ name)
  | .Number v, _, _ => .ok (.Number v)
  | .Lambda p b, level, env =>
      match Term.toDeBruijn b (level + 1) ((p, level) :: env) with
      | .ok b2 => .ok (.Lambda p b2)
      | .error e => .error e
  | .Application f a, level, env =>
      match Term.toDeBruijn f level env with
      | .ok f2 =>
          match Term.toDeBruijn a level env with
          | .ok a2 => .ok (.Application f2 a2)
          | .error e => .error e
      | .error e => .error e
  | .BinaryOp op l r, level, env =>
      match Term.toDeBruijn l level env with
      | .ok l2 =>
          match Term.toDeBruijn r level env with
          | .ok r2 => .ok (.BinaryOp op l2 r2)
          | .error e => .error e
      | .error e => .error e

/-- The instruction opcodes of the first variant (`enum class CAMCommand`). -/
inductive CAMCommand where
  | PUSH
  | GRAB
  | ACCESS
  | APPLY
  | ADD
  | MUL
  | RETURN
  | JUMP
  | JUMP_IF
  | LOOP
  | HALT
deriving DecidableEq, Repr

/-- `CAMCompiler::compileTerm(term, env_size)`: a variable index at or
above the current binder count is a compile-time failure; otherwise the
code built for each node follows the source exactly (argument code before
function code before `APPLY`). -/
def compileTerm : Term → Int → Except String (List (CAMCommand × Int))
  | .Variable _ idx, env_size =>
      if idx ≥ env_size then
        .error "Variable access out of bounds during compilation"
      else
        .ok [(.ACCESS, idx)]
  | .Number v, _ => .ok [(.PUSH, v)]
  | .Lambda _ b, env_size =>
      match compileTerm b (env_size + 1) with
      | .ok body_code => .ok ((.GRAB, 0) :: body_code ++ [(.RETURN, 0)])
      | .error e => .error e
  | .Application f a, env_size =>
      match compileTerm a env_size, compileTerm f env_size with
      | .ok arg_code, .ok func_code => .ok (arg_code ++ func_code ++ [(.APPLY, 0)])
      | .error e, _ => .error e
      | _, .error e => .error e
  | .BinaryOp op l r, env_size =>
      match compileTerm l env_size, compileTerm r env_size with
      | .ok left_code, .ok right_code =>
          .ok (left_code ++ right_code ++ [(if op = '+' then CAMCommand.ADD else CAMCommand.MUL, 0)])
      | .error e, _ => .error e
      | _, .error e => .error e

/-- `CAMCompiler::compile`: resolve to de Bruijn form, then compile at
depth 0. -/
def compile (t : Term) : Except String (List (CAMCommand × Int)) :=
  match t.toDeBruijn 0 [] with
  | .ok dbTerm => compileTerm dbTerm 0
  | .error e => .error e

/-- Well-scopedness of a resolved term at binder depth `d`: every
variable index is below the number of enclosing binders. -/
def scopeOK : Term → Int → Bool
  | .Variable _ idx, d => decide (idx < d)
  | .Number _, _ => true
  | .Lambda _ b, d => scopeOK b (d + 1)
  | .Application f a, d => scopeOK f d && scopeOK a d
  | .BinaryOp _ l r, d => scopeOK l d && scopeOK r d

/-- The state of `CAMMachine` in the first variant: remaining code,
environment of integers, dump (a stack of flat integer vectors saved by
`GRAB`), and evaluation stack (head is the top). The C++ dump is a
`vector` used as a stack via `push_back`/`back`; a list with the head as
the most recent entry has the same behaviour. -/
structure MachineState where
  code_stack : List (CAMCommand × Int)
  env_stack : List Int
  dump_stack : List (List Int)
  eval_stack : List Int
deriving DecidableEq, Repr

/-- `CAMMachine::executeCommand`, acting on the state left after the
driver loop has already removed the instruction from the front of the
code. `GRAB` saves a flat dump record (remaining code length, environment
size, environment) and binds the popped value innermost; `APPLY` is a
no-op (`break` with a comment); `RETURN` pops the result, restores the
saved environment, and drops `code_pos` leading instructions only when
`code_pos` is less than the current code length. -/
def executeCommand (s : MachineState) (instruction : CAMCommand × Int) :
    Except String MachineState :=
  match instruction.1 with
  | .PUSH => .ok { s with eval_stack := instruction.2 :: s.eval_stack }
  | .GRAB =>
      match s.eval_stack with
      | [] => .error "Stack underflow"
      | arg_val :: rest =>
          let dump_item : List Int :=
            (s.code_stack.length : Int) :: (s.env_stack.length : Int) :: s.env_stack
          .ok { s with
                eval_stack := rest
                dump_stack := dump_item :: s.dump_stack
                env_stack := arg_val :: s.env_stack }
  | .ACCESS =>
      if instruction.2 < 0 ∨ (s.env_stack.length : Int) ≤ instruction.2 then
        .error ("Variable access out of bounds: index " ++ toString instruction.2 ++
                " in env of size " ++ toString s.env_stack.length)
      else
        match s.env_stack.get? instruction.2.toNat with
        | some v => .ok { s with eval_stack := v :: s.eval_stack }
        | none => .error "Variable access out of bounds"
  | .APPLY => .ok s
  | .RETURN =>
      match s.eval_stack with
      | [] => .error "Stack underflow"
      | result :: rest =>
          match s.dump_stack with
          | [] => .ok { s with eval_stack := result :: rest, code_stack := [] }
          | dump_item :: dumps =>
              let code_pos := dump_item.getD 0 0
              let env_size := dump_item.getD 1 0
              let saved_env := (dump_item.drop 2).take env_size.toNat
              let new_code :=
                if code_pos < (s.code_stack.length : Int) then
                  s.code_stack.drop code_pos.toNat
                else s.code_stack
              .ok { code_stack := new_code
                    env_stack := saved_env
                    dump_stack := dumps
                    eval_stack := result :: rest }
  | .ADD =>
      match s.eval_stack with
      | b :: a :: rest => .ok { s with eval_stack := (a + b) :: rest }
      | _ => .error "Stack underflow"
  | .MUL =>
      match s.eval_stack with
      | b :: a :: rest => .ok { s with eval_stack := (a * b) :: rest }
      | _ => .error "Stack underflow"
  | _ => .error "Unknown command"

/-- The driver loop of `CAMMachine::execute`: pop the front instruction
and execute it until the code is empty, with fuel standing in for the
unbounded `while`. -/
def execLoop : Nat → MachineState → Except String MachineState
  | 0, _ => .error "Out of fuel"
  | fuel + 1, s =>
      match s.code_stack with
      | [] => .ok s
      | instruction :: rest =>
          match executeCommand { s with code_stack := rest } instruction with
          | .ok s2 => execLoop fuel s2
          | .error e => .error e

/-- `CAMMachine::execute(program)`: run from empty stack, environment
and dump; a normal halt requires exactly one value on the stack. -/
def execute (fuel : Nat) (program : List (CAMCommand × Int)) : Except String Int :=
  match execLoop fuel ⟨program, [], [], []⟩ with
  | .ok s =>
      match s.eval_stack with
      | [v] => .ok v
      | _ => .error "Invalid final stack state"
  | .error e => .error e

/-- The loop of `Parser::skipWhitespace`, with fuel (the loop advances
`pos` by one while it sees whitespace, so any fuel above
`input.length - pos` is enough). -/
def skipWhitespaceAux : Nat → List Char → Nat → Nat
  | 0, _, pos => pos
  | fuel + 1, input, pos =>
      match input.get? pos with
      | some c => if c.isWhitespace then skipWhitespaceAux fuel input (pos + 1) else pos
      | none => pos

/-- `Parser::skipWhitespace`: advance past whitespace characters. -/
def skipWhitespace (input : List Char) (pos : Nat) : Nat :=
  skipWhitespaceAux (input.length + 1) input pos

/-- `Parser::peek`: skip whitespace (the C++ version advances `pos` as a
side effect, returned here as the second component) and look at the
current character; `none` stands for the `'\0'` end marker. -/
def peekChar (input : List Char) (pos : Nat) : Option Char × Nat :=
  let p := skipWhitespace input pos
  (input.get? p, p)

/-- `Parser::next`: skip whitespace, consume one character, failing at
end of input. -/
def nextChar (input : List Char) (pos : Nat) : Except String (Char × Nat) :=
  let p := skipWhitespace input pos
  match input.get? p with
  | some c => .ok (c, p + 1)
  | none => .error "Unexpected end of input"

/-- The digit-accumulation loop of `Parser::parseNumber`
(`while (isdigit(peek())) num += next();` followed by `stoi`), with the
accumulated value computed directly. Note that `peek` skips whitespace
on every iteration, exactly as in the source. -/
def parseDigits (fuel : Nat) (input : List Char) (pos : Nat) (acc : Int) : Int × Nat :=
  match fuel with
  | 0 => (acc, pos)
  | fuel + 1 =>
      match peekChar input pos with
      | (some c, p) =>
          if c.isDigit then parseDigits fuel input (p + 1) (acc * 10 + ((c.toNat : Int) - 48))
          else (acc, p)
      | (none, p) => (acc, p)

/-- The letter-accumulation loop shared by `Parser::parseVariable` and
the parameter loop of `Parser::parseLambda`. -/
def parseAlpha (fuel : Nat) (input : List Char) (pos : Nat) (acc : String) : String × Nat :=
  match fuel with
  | 0 => (acc, pos)
  | fuel + 1 =>
      match peekChar input pos with
      | (some c, p) =>
          if c.isAlpha then parseAlpha fuel input (p + 1) (acc.push c)
          else (acc, p)
      | (none, p) => (acc, p)

/-- `Parser::parseTerm` (with `Parser::parseLambda` inlined at its only
call site): atoms are numbers and identifiers; after `(` either the
literal `lambda` introduces a lambda form, or a sub-term is parsed and
the following `+`/`*` selects a binary operation, any other continuation
being an application. -/
def parseTerm : Nat → List Char → Nat → Except String (Term × Nat)
  | 0, _, _ => .error "Out of fuel"
  | fuel + 1, input, pos =>
      match peekChar input pos with
      | (none, _) => .error "Unexpected character"
      | (some c, p) =>
          if c ≠ '(' then
            if c.isDigit then
              let (v, p2) := parseDigits fuel input p 0
              .ok (.Number v, p2)
            else if c.isAlpha then
              let (name, p2) := parseAlpha fuel input p ""
              .ok (.Variable name (-1), p2)
            else .error "Unexpected character"
          else
            let p1 := p + 1
            let (c2, p2) := peekChar input p1
            if c2 = some 'l' ∧ (input.drop p2).take 6 = "lambda".toList then
              let (param, p3) := parseAlpha fuel input (p2 + 6) ""
              if param = "" then .error "Expected parameter name after lambda"
              else
                match nextChar input p3 with
                | .ok ('.', p4) =>
                    match parseTerm fuel input p4 with
                    | .ok (body, p5) =>
                        match nextChar input p5 with
                        | .ok (')', p6) => .ok (.Lambda param body, p6)
                        | .ok _ => .error "Expected ')' after lambda body"
                        | .error e => .error e
                    | .error e => .error e
                | .ok _ => .error "Expected '.' after lambda parameter"
                | .error e => .error e
            else
              match parseTerm fuel input p2 with
              | .ok (left, p3) =>
                  let (c3, p4) := peekChar input p3
                  if c3 = some '+' ∨ c3 = some '*' then
                    let op : Char := if c3 = some '+' then '+' else '*'
                    match parseTerm fuel input (p4 + 1) with
                    | .ok (right, p5) =>
                        match nextChar input p5 with
                        | .ok (')', p6) => .ok (.BinaryOp op left right, p6)
                        | .ok _ => .error "Expected ')'"
                        | .error e => .error e
                    | .error e => .error e
                  else
                    match parseTerm fuel input p4 with
                    | .ok (arg, p5) =>
                        match nextChar input p5 with
                        | .ok (')', p6) => .ok (.Application left arg, p6)
                        | .ok _ => .error "Expected ')'"
                        | .error e => .error e
                    | .error e => .error e
              | .error e => .error e

/-- `Parser::parse`: parse a full term and reject trailing input. -/
def parse (str : String) : Except String Term :=
  let input := str.toList
  match parseTerm (input.length + 1) input 0 with
  | .ok (t, p) => if p ≠ input.length then .error "Extra input at end" else .ok t
  | .error e => .error e

/-- The full pipeline exercised by `main`: parse the source text,
compile it (which resolves to de Bruijn form first), and run the
resulting program on the machine. -/
def runProgram (fuel : Nat) (src : String) : Except String Int :=
  match parse src with
  | .ok t =>
      match compile t with
      | .ok p => execute fuel p
      | .error e => .error e
  | .error e => .error e

end CamNew

namespace CamNew2

/-- AST of the second `cam_new.cpp` variant (no `BinaryOp`). -/
inductive Term where
  | Variable (name : String) (deBruijnIdx : Int)
  | Number (value : Int)
  | Lambda (param : String) (body : Term)
  | Application (func arg : Term)
deriving DecidableEq, Repr

/-- The instruction opcodes of the second variant. -/
inductive CAMCommand where
  | ACCESS
  | GRAB
  | PUSH
  | APPLY
  | RETURN
deriving DecidableEq, Repr

/-- The second variant's `CAMCompiler::compileTerm`: a `Variable` always
compiles to `ACCESS 0` regardless of its index; `Lambda` compiles the
body at `env_size + 1` and wraps it in `GRAB`/`RETURN`; `Application`
emits argument code, then function code, then `APPLY`. This compiler
never fails. -/
def compileTerm : Term → Int → List (CAMCommand × Int)
  | .Variable _ _, _ => [(.ACCESS, 0)]
  | .Number v, _ => [(.PUSH, v)]
  | .Lambda _ b, env_size =>
      let body_code := compileTerm b (env_size + 1)
      (.GRAB, 0) :: body_code ++ [(.RETURN, 0)]
  | .Application f a, env_size =>
      let arg_code := compileTerm a env_size
      let func_code := compileTerm f env_size
      arg_code ++ func_code ++ [(.APPLY, 0)]

/-- The state of the second variant's `CAMMachine`: code `C`,
environment `A`, dump `M` of saved (code, environment) pairs, and
operand stack `S` (head is the top). -/
structure Machine where
  C : List (CAMCommand × Int)
  A : List Int
  M : List (List (CAMCommand × Int) × List Int)
  S : List Int
deriving DecidableEq, Repr

/-- The second variant's `CAMMachine::step`. `GRAB` saves the remaining
code and environment on the dump and clears the code; `ACCESS` ignores
its index and always pushes `A[0]`, failing only on an empty
environment; `APPLY` pops two integers, makes the first popped value the
whole new environment and pushes the second back; `RETURN` restores from
the dump or halts by clearing the code. -/
def step (m : Machine) : Except String Machine :=
  match m.C with
  | [] => .ok m
  | (cmd, arg) :: rest =>
      match cmd with
      | .PUSH => .ok { m with C := rest, S := arg :: m.S }
      | .GRAB => .ok { m with C := [], M := (rest, m.A) :: m.M }
      | .ACCESS =>
          match m.A with
          | [] => .error "Accessing variable in empty environment"
          | a0 :: _ => .ok { m with C := rest, S := a0 :: m.S }
      | .APPLY =>
          match m.S with
          | arg_v :: func_v :: s2 =>
              .ok { C := rest, A := [arg_v], M := m.M, S := func_v :: s2 }
          | _ => .error "Stack underflow in APPLY"
      | .RETURN =>
          match m.S with
          | [] => .error "Stack underflow"
          | result :: s2 =>
              match m.M with
              | [] => .ok { m with C := [], S := result :: s2 }
              | (savedCode, savedEnv) :: ms =>
                  .ok { C := savedCode, A := savedEnv, M := ms, S := result :: s2 }

end CamNew2

namespace Cam

/-- The type language of `cam.hpp`: `TypeVar`, `TypeArrow`, `TypeConst`.
(`Type` itself is not available as a Lean name.) -/
inductive Ty where
  | TypeVar (id : Int)
  | TypeArrow (src dst : Ty)
  | TypeConst (name : String)
deriving DecidableEq, Repr

/-- The substitution map from `TypeVar` ids to types. The C++
`unordered_map` with assignment is modelled as an association list read
first-match-wins, with assignment as prepending. -/
def Subs := List (Int × Ty)

/-- Lookup of a `TypeVar` id in the substitution map. -/
def subsFind : List (Int × Ty) → Int → Option Ty
  | [], _ => none
  | (k, v) :: rest, i => if k = i then some v else subsFind rest i

/-- The `apply_subs` lambda inside `unify`: a `TypeVar` present in the
map is replaced by its image, exactly once; every other type is left
unchanged. -/
def applySubsStep (subs : List (Int × Ty)) (t : Ty) : Ty :=
  match t with
  | .TypeVar i =>
      match subsFind subs i with
      | some u => u
      | none => t
  | _ => t

/-- `UnifyVisitor`: dispatch on the (already substituted) left type.
A left `TypeVar` succeeds only against a `TypeVar` (equal id: no change;
different id: record the substitution) and throws against `TypeArrow`
and `TypeConst`; `TypeArrow` unifies componentwise (visiting the
components directly, without re-applying substitutions) or records a
substitution for a right `TypeVar`; `TypeConst` requires an identical
name or a right `TypeVar`. -/
def unifyVisit : Ty → Ty → List (Int × Ty) → Except String (List (Int × Ty))
  | .TypeVar i, t2, subs =>
      match t2 with
      | .TypeVar j => if i = j then .ok subs else .ok ((i, t2) :: subs)
      | .TypeArrow _ _ => .error "Cannot unify type variable with arrow type"
      | .TypeConst _ => .error "Cannot unify type variable with constant type"
  | .TypeArrow a1 b1, t2, subs =>
      match t2 with
      | .TypeArrow a2 b2 =>
          match unifyVisit a1 a2 subs with
          | .ok subs1 => unifyVisit b1 b2 subs1
          | .error e => .error e
      | .TypeVar j => .ok ((j, Ty.TypeArrow a1 b1) :: subs)
      | .TypeConst _ => .error "Type mismatch in arrow unification"
  | .TypeConst n, t2, subs =>
      match t2 with
      | .TypeConst m =>
          if n = m then .ok subs
          else .error ("Type constant mismatch: " ++ n ++ " vs " ++ m)
      | .TypeVar j => .ok ((j, Ty.TypeConst n) :: subs)
      | .TypeArrow _ _ => .error "Type mismatch in constant unification"

/-- `unify(t1, t2, subs)`: apply the substitution map once to each side,
return unchanged on equal sides, and otherwise dispatch through the
visitor. -/
def unify (t1 t2 : Ty) (subs : List (Int × Ty)) : Except String (List (Int × Ty)) :=
  let u1 := applySubsStep subs t1
  let u2 := applySubsStep subs t2
  if u1 = u2 then .ok subs else unifyVisit u1 u2 subs

/-- `type_to_string_full` via `FullTypePrinter` with an empty
`var_types` map, as it is always called. -/
def type_to_string_full : Ty → String
  | .TypeVar i => "?" ++ toString i
  | .TypeArrow a b => "(" ++ type_to_string_full a ++ " -> " ++ type_to_string_full b ++ ")"
  | .TypeConst n => n

/-- The expression language of `cam.hpp`: `Constant`, `Variable`,
`Lambda` (with annotated parameter type), `Apply`. -/
inductive Expr where
  | Constant (name : String) (ty : Ty)
  | Variable (name : String) (ty : Ty)
  | Lambda (param : String) (param_type : Ty) (body : Expr)
  | Apply (func arg : Expr)
deriving DecidableEq, Repr

/-- Lookup in a `TypeContext` (`unordered_map<string, Type>` modelled as
a first-match association list, assignment as prepending). -/
def ctxFind : List (String × Ty) → String → Option Ty
  | [], _ => none
  | (k, v) :: rest, n => if k = n then some v else ctxFind rest n

/-- `InferVisitor::apply_all_subs`: chase a `TypeVar` through the
substitution map recursively and rebuild arrows componentwise. The C++
recursion has no termination guarantee on cyclic maps, so fuel bounds the
chase; with fuel 0 the type is returned unchanged. -/
def apply_all_subs (fuel : Nat) (subs : List (Int × Ty)) (t : Ty) : Ty :=
  match fuel with
  | 0 => t
  | fuel + 1 =>
      match t with
      | .TypeVar i =>
          match subsFind subs i with
          | some u => apply_all_subs fuel subs u
          | none => t
      | .TypeArrow a b => .TypeArrow (apply_all_subs fuel subs a) (apply_all_subs fuel subs b)
      | .TypeConst _ => t

/-- The body of `InferVisitor`, with the global `TypeVarGenerator`
counter threaded explicitly. `cf` is the chasing fuel for
`apply_all_subs`. The nested calls that the C++ makes to `infer_type`
(in the `Lambda` and `Apply` cases) construct a fresh visitor, i.e. a
fresh empty substitution map, and are inlined here: visit with `[]`,
then chase the result through the subcall's final map. In the `Apply`
case a unification failure is re-raised with both rendered operand
types, and on success the fresh result variable is read back through
the updated map (the local `apply_subs` lambda there has the same
behaviour as `apply_all_subs`). -/
def inferVisit (cf : Nat) : Expr → List (String × Ty) → List (Int × Ty) → Int →
    Except String (Ty × List (Int × Ty) × Int)
  | .Constant _ ty, _, subs, n => .ok (ty, subs, n)
  | .Variable name _, ctx, subs, n =>
      match ctxFind ctx name with
      | some ty => .ok (ty, subs, n)
      | none => .error ("Unbound variable: " ++ name)
  | .Lambda p pty body, ctx, subs, n =>
      match inferVisit cf body ((p, pty) :: ctx) [] n with
      | .ok (bt, bsubs, n1) =>
          let body_type := apply_all_subs cf bsubs bt
          .ok (.TypeArrow pty body_type, subs, n1)
      | .error e => .error e
  | .Apply f a, ctx, subs, n =>
      match inferVisit cf f ctx [] n with
      | .ok (ft, fsubs, n1) =>
          let func_type := apply_all_subs cf fsubs ft
          match inferVisit cf a ctx [] n1 with
          | .ok (at_, asubs, n2) =>
              let arg_type := apply_all_subs cf asubs at_
              let result_type := Ty.TypeVar n2
              match unify func_type (.TypeArrow arg_type result_type) subs with
              | .ok subs2 =>
                  let result :=
                    match result_type with
                    | .TypeVar i =>
                        match subsFind subs2 i with
                        | some u => apply_all_subs cf subs2 u
                        | none => result_type
                    | _ => result_type
                  .ok (result, subs2, n2 + 1)
              | .error e =>
                  .error ("Type error in application: " ++ e ++
                          "\nFunction type: " ++ type_to_string_full func_type ++
                          "\nArgument type: " ++ type_to_string_full arg_type)
          | .error e => .error e
      | .error e => .error e

/-- `infer_type(expr, context)`: run the visitor with an empty
substitution map, then chase the resulting type through the visitor's
final map. Returns the inferred type together with the new value of the
type-variable counter. -/
def infer_type (cf : Nat) (e : Expr) (ctx : List (String × Ty)) (n : Int) :
    Except String (Ty × Int) :=
  match inferVisit cf e ctx [] n with
  | .ok (t, subs, n1) => .ok (apply_all_subs cf subs t, n1)
  | .error e2 => .error e2

/-- `substitute(expr, var, value)`: capture-avoiding only at binders of
the same name; constants are returned unchanged. -/
def substitute : Expr → String → Expr → Expr
  | .Variable name ty, var, value =>
      if name = var then value else .Variable name ty
  | .Lambda p pty b, var, value =>
      if p = var then .Lambda p pty b
      else .Lambda p pty (substitute b var value)
  | .Apply f a, var, value => .Apply (substitute f var value) (substitute a var value)
  | .Constant name ty, _, _ => .Constant name ty

/-- `reduce(expr)`: one leftmost call-by-name step on applications. The
function part is reduced first; if it made no progress and is a lambda,
beta-reduce; otherwise try the argument; otherwise report no reduction
with the original expression. Non-applications never reduce. -/
def reduce : Expr → Expr × Bool
  | .Apply f a =>
      match reduce f with
      | (new_func, true) => (.Apply new_func a, true)
      | (new_func, false) =>
          match new_func with
          | .Lambda p _ body => (substitute body p a, true)
          | _ =>
              match reduce a with
              | (new_arg, true) => (.Apply f new_arg, true)
              | (_, false) => (.Apply f a, false)
  | e => (e, false)

/-- `normalize(expr)`: iterate `reduce` until it reports no further
reduction, with fuel standing in for the unbounded `do`/`while`; `none`
means the fuel ran out before a normal form was reached. -/
def normalize : Nat → Expr → Option Expr
  | 0, _ => none
  | fuel + 1, e =>
      match reduce e with
      | (e2, true) => normalize fuel e2
      | (e2, false) => some e2

end Cam

namespace CamNew

/-- The environment that `toDeBruijn` has accumulated after descending
through the binders `bs`, listed innermost first: the innermost binder
was recorded at level `bs.length - 1`, the outermost at level 0.
The descent through `k` nested `Lambda` nodes starting from the empty
environment at level 0 produces exactly this list (each `Lambda` prepends
its parameter at the current level and increments the level). -/
def envOfBinders : List String → List (String × Int)
  | [] => []
  | p :: ps => (p, (ps.length : Int)) :: envOfBinders ps

/-- Distance from a variable occurrence to the nearest enclosing binder
of its name, counted outward through the innermost-first binder list
`bs`; `none` when no enclosing binder matches. Stated from the
specification's description of the lexical index. -/
def binderDistance (name : String) : List String → Option Nat
  | [] => none
  | b :: bs => if b = name then some 0 else (binderDistance name bs).map (· + 1)

end CamNew

namespace Cam

/-- The base type `Bool` from `run_tests` in `cam_test.cpp`. -/
def bool_type : Ty := .TypeConst "Bool"

/-- The base type `Int` from `run_tests` in `cam_test.cpp`. -/
def int_type : Ty := .TypeConst "Int"

/-- The typing context of `run_tests`: `true : Bool`, `false : Bool`,
`0 : Int`. -/
def test_context : List (String × Ty) :=
  [("true", bool_type), ("false", bool_type), ("0", int_type)]

/-- `id_bool` from `run_tests`: `lambda x:Bool. x`. -/
def id_bool : Expr := .Lambda "x" bool_type (.Variable "x" bool_type)

/-- Test 1 of `run_tests`: `(lambda x:Bool. x) true`. -/
def apply_id : Expr := .Apply id_bool (.Constant "true" bool_type)

/-- Test 3 of `run_tests`: `(lambda x:Bool. x) 0` with `0 : Int`. -/
def bad_apply : Expr := .Apply id_bool (.Constant "0" int_type)

end Cam

/-- C1: the full pipeline — parse, resolve to de Bruijn form, compile,
execute on the abstract machine — terminates normally and yields 43 for
`((lambda x. (x + 1)) 42)` and 42 for
`((lambda x. ((lambda y. (x + y)) 10)) 32)`. -/
theorem pipeline_evaluates_examples :
    CamNew.runProgram 100 "((lambda x. (x + 1)) 42)" = Except.ok 43 ∧
    CamNew.runProgram 100 "((lambda x. ((lambda y. (x + y)) 10)) 32)" = Except.ok 42 :=
  ⟨rfl, rfl⟩

/-- C2: in both compiler variants, a `Lambda` compiles to `GRAB`, then
the body compiled at binder depth + 1, then `RETURN`; an `Application`
compiles to the argument's code, then the function's code, then `APPLY`,
in that order. -/
theorem compiler_code_shape :
    (∀ (p : String) (b : CamNew.Term) (d : Int) (bc : List (CamNew.CAMCommand × Int)),
        CamNew.compileTerm b (d + 1) = Except.ok bc →
        CamNew.compileTerm (.Lambda p b) d =
          Except.ok ((.GRAB, 0) :: bc ++ [(.RETURN, 0)])) ∧
    (∀ (f a : CamNew.Term) (d : Int) (ac fc : List (CamNew.CAMCommand × Int)),
        CamNew.compileTerm a d = Except.ok ac →
        CamNew.compileTerm f d = Except.ok fc →
        CamNew.compileTerm (.Application f a) d =
          Except.ok (ac ++ fc ++ [(.APPLY, 0)])) ∧
    (∀ (p : String) (b : CamNew2.Term) (d : Int),
        CamNew2.compileTerm (.Lambda p b) d =
          (.GRAB, 0) :: CamNew2.compileTerm b (d + 1) ++ [(.RETURN, 0)]) ∧
    (∀ (f a : CamNew2.Term) (d : Int),
        CamNew2.compileTerm (.Application f a) d =
          CamNew2.compileTerm a d ++ CamNew2.compileTerm f d ++ [(.APPLY, 0)]) := by
  refine ⟨?_, ?_, ?_, ?_⟩
  · intro p b d bc h
    simp [CamNew.compileTerm, h]
  · intro f a d ac fc ha hf
    simp [CamNew.compileTerm, ha, hf]
  · intro p b d
    rfl
  · intro f a d
    rfl

/-- Witness for C2 at concrete inputs: `Lambda "x" (Number 1)` at depth 0
and `Application (Number 2) (Number 3)` at depth 0. -/
theorem compiler_code_shape_witness :
    CamNew.compileTerm (.Lambda "x" (.Number 1)) 0 =
      Except.ok [(.GRAB, 0), (.PUSH, 1), (.RETURN, 0)] ∧
    CamNew.compileTerm (.Application (.Number 2) (.Number 3)) 0 =
      Except.ok [(.PUSH, 3), (.PUSH, 2), (.APPLY, 0)] :=
  ⟨compiler_code_shape.1 "x" (.Number 1) 0 [(.PUSH, 1)] rfl,
   compiler_code_shape.2.1 (.Number 2) (.Number 3) 0 [(.PUSH, 3)] [(.PUSH, 2)] rfl rfl⟩

/-- C3 counterexample: in the first machine, executing `APPLY` on the
state with operand stack `[2, 1]` (two plain integers, the top one the
would-be callable) succeeds and leaves the state entirely unchanged — it
pops nothing, pushes nothing onto the dump, and does not fail with
NotCallable, refuting the claimed `APPLY` semantics at this concrete
input. -/
theorem apply_noop_counterexample :
    CamNew.executeCommand ⟨[], [], [], [2, 1]⟩ (CamNew.CAMCommand.APPLY, 0) =
      Except.ok ⟨[], [], [], [2, 1]⟩ := rfl

/-- C3 amended: machine values are plain integers and there are no
closures. In the first machine `APPLY` is a no-op that leaves the whole
state unchanged; in the second machine `APPLY` pops two integers,
replaces the environment by the singleton holding the first popped
value, and pushes the second popped value back, failing only by stack
underflow — never with NotCallable. -/
theorem apply_actual_semantics :
    (∀ (s : CamNew.MachineState) (n : Int),
        CamNew.executeCommand s (CamNew.CAMCommand.APPLY, n) = Except.ok s) ∧
    (∀ (rest : List (CamNew2.CAMCommand × Int)) (A : List Int)
        (M : List (List (CamNew2.CAMCommand × Int) × List Int))
        (av fv : Int) (S : List Int) (n : Int),
        CamNew2.step ⟨(.APPLY, n) :: rest, A, M, av :: fv :: S⟩ =
          Except.ok ⟨rest, [av], M, fv :: S⟩) ∧
    (∀ (rest : List (CamNew2.CAMCommand × Int)) (A : List Int)
        (M : List (List (CamNew2.CAMCommand × Int) × List Int)) (n : Int),
        CamNew2.step ⟨(.APPLY, n) :: rest, A, M, []⟩ =
          Except.error "Stack underflow in APPLY") ∧
    (∀ (rest : List (CamNew2.CAMCommand × Int)) (A : List Int)
        (M : List (List (CamNew2.CAMCommand × Int) × List Int)) (x n : Int),
        CamNew2.step ⟨(.APPLY, n) :: rest, A, M, [x]⟩ =
          Except.error "Stack underflow in APPLY") := by
  refine ⟨?_, ?_, ?_, ?_⟩
  · intro s n; rfl
  · intro rest A M av fv S n; rfl
  · intro rest A M n; rfl
  · intro rest A M x n; rfl

/-- The environment accumulated by the resolver's descent through the
binders `bs` assigns to a name the level of its innermost binder, i.e.
`bs.length - 1 - distance`. -/
theorem envLookup_envOfBinders (name : String) (bs : List String) :
    CamNew.envLookup (CamNew.envOfBinders bs) name =
      (CamNew.binderDistance name bs).map (fun (i : Nat) => (bs.length : Int) - 1 - (i : Int)) := by
  induction bs with
  | nil => rfl
  | cons b rest ih =>
      by_cases hb : b = name
      · subst hb
        simp [CamNew.envOfBinders, CamNew.envLookup, CamNew.binderDistance]
      · simp only [CamNew.envOfBinders, CamNew.envLookup, CamNew.binderDistance, hb,
          if_false, ih]
        cases CamNew.binderDistance name rest with
        | none => rfl
        | some i =>
            simp only [Option.map_some', List.length_cons, Option.some.injEq]
            push_cast
            omega

/-- C4: scope resolution assigns to a bound `Variable` occurrence the
index `binder depth − binding level − 1`, which equals the distance to
the nearest enclosing binder of that name counted outward, and fails
with an unbound-variable error when no enclosing binder matches; a
`Lambda` records its parameter at the current level and resolves its
body one level deeper. -/
theorem resolve_assigns_nearest_binder_distance :
    (∀ (name : String) (j : Int) (bs : List String) (i : Nat),
        CamNew.binderDistance name bs = some i →
        CamNew.Term.toDeBruijn (.Variable name j) (bs.length : Int) (CamNew.envOfBinders bs) =
          Except.ok (.Variable name (i : Int))) ∧
    (∀ (name : String) (j : Int) (bs : List String),
        CamNew.binderDistance name bs = none →
        CamNew.Term.toDeBruijn (.Variable name j) (bs.length : Int) (CamNew.envOfBinders bs) =
          Except.error ("Unbound variable: " ++ name)) ∧
    (∀ (p : String) (b : CamNew.Term) (level : Int) (env : List (String × Int)),
        CamNew.Term.toDeBruijn (.Lambda p b) level env =
          match CamNew.Term.toDeBruijn b (level + 1) ((p, level) :: env) with
          | .ok b2 => Except.ok (CamNew.Term.Lambda p b2)
          | .error e => Except.error e) := by
  refine ⟨?_, ?_, ?_⟩
  · intro name j bs i h
    simp only [CamNew.Term.toDeBruijn, envLookup_envOfBinders, h, Option.map_some']
    congr 2
    omega
  · intro name j bs h
    simp [CamNew.Term.toDeBruijn, envLookup_envOfBinders, h]
  · intro p b level env
    rfl

/-- Witness for C4: under the binder stack `y` (innermost), `x`
(outermost), the occurrence of `x` resolves to index 1 and an occurrence
of `z` is an unbound-variable error. -/
theorem resolve_witness :
    CamNew.Term.toDeBruijn (.Variable "x" (-1)) 2 (CamNew.envOfBinders ["y", "x"]) =
      Except.ok (.Variable "x" 1) ∧
    CamNew.Term.toDeBruijn (.Variable "z" (-1)) 2 (CamNew.envOfBinders ["y", "x"]) =
      Except.error ("Unbound variable: " ++ "z") :=
  ⟨resolve_assigns_nearest_binder_distance.1 "x" (-1) ["y", "x"] 1 rfl,
   resolve_assigns_nearest_binder_distance.2.1 "z" (-1) ["y", "x"] rfl⟩

/-- C5 counterexample: unifying a fresh `TypeVar` (as the first
argument) with a `TypeConst` or with a `TypeArrow` fails instead of
recording a substitution, refuting the claim at these concrete inputs. -/
theorem unify_typevar_fails_counterexample :
    Cam.unify (.TypeVar 0) (.TypeConst "Bool") [] =
      Except.error "Cannot unify type variable with constant type" ∧
    Cam.unify (.TypeVar 0) (.TypeArrow (.TypeConst "Int") (.TypeConst "Int")) [] =
      Except.error "Cannot unify type variable with arrow type" := ⟨rfl, rfl⟩

/-- C5 amended: after the one-step substitution application, a `TypeVar`
as the first argument unifies only with a `TypeVar` — trivially when the
ids are equal, by recording the substitution when they differ — and
fails against a `TypeArrow` or a `TypeConst`. (A `TypeVar` as the second
argument does unify with arrows and constants by recording.) -/
theorem unify_typevar_left_only_typevar :
    (∀ (i : Int) (a b : Cam.Ty) (subs : List (Int × Cam.Ty)),
        Cam.subsFind subs i = none →
        Cam.unify (.TypeVar i) (.TypeArrow a b) subs =
          Except.error "Cannot unify type variable with arrow type") ∧
    (∀ (i : Int) (n : String) (subs : List (Int × Cam.Ty)),
        Cam.subsFind subs i = none →
        Cam.unify (.TypeVar i) (.TypeConst n) subs =
          Except.error "Cannot unify type variable with constant type") ∧
    (∀ (i j : Int) (subs : List (Int × Cam.Ty)),
        Cam.subsFind subs i = none → Cam.subsFind subs j = none →
        Cam.unify (.TypeVar i) (.TypeVar j) subs =
          Except.ok (if i = j then subs else (i, Cam.Ty.TypeVar j) :: subs)) := by
  refine ⟨?_, ?_, ?_⟩
  · intro i a b subs h
    simp [Cam.unify, Cam.applySubsStep, h, Cam.unifyVisit]
  · intro i n subs h
    simp [Cam.unify, Cam.applySubsStep, h, Cam.unifyVisit]
  · intro i j subs hi hj
    by_cases hij : i = j
    · subst hij
      simp [Cam.unify, Cam.applySubsStep, hi]
    · simp [Cam.unify, Cam.applySubsStep, hi, hj, Cam.unifyVisit, hij]

/-- Witness for C5's amended statement at concrete inputs. -/
theorem unify_typevar_witness :
    Cam.unify (.TypeVar 0) (.TypeVar 1) [] = Except.ok [(0, Cam.Ty.TypeVar 1)] ∧
    Cam.unify (.TypeVar 2) (.TypeConst "Bool") [(0, .TypeConst "Int")] =
      Except.error "Cannot unify type variable with constant type" := by
  constructor
  · have h := unify_typevar_left_only_typevar.2.2 0 1 [] rfl rfl
    simpa using h
  · exact unify_typevar_left_only_typevar.2.1 2 "Bool" [(0, .TypeConst "Int")] rfl

/-- C6 counterexample: with the substitution map `{0 ↦ TypeVar 1,
1 ↦ Int}`, unifying `TypeVar 0` with `Int` fails — the chain
`0 ↦ 1 ↦ Int` is not followed to its fixed point (which would have made
both sides `Int` and succeeded), refuting the claim at this concrete
input. -/
theorem unify_no_chase_counterexample :
    Cam.unify (.TypeVar 0) (.TypeConst "Int") [(0, .TypeVar 1), (1, .TypeConst "Int")] =
      Except.error "Cannot unify type variable with constant type" := rfl

/-- C6 amended: `unify` applies the existing substitution map exactly
one step to each side before the case analysis: a `TypeVar` mapped to
another mapped `TypeVar` is replaced by that variable but not chased
further, so the two-step chain fails where starting one step later
succeeds. (Chasing to a fixed point happens only in `apply_all_subs`
when types are read out of an inference.) -/
theorem unify_applies_subs_single_step :
    ∀ (subs : List (Int × Cam.Ty)) (i j : Int) (n : String),
      Cam.subsFind subs i = some (.TypeVar j) →
      Cam.subsFind subs j = some (.TypeConst n) →
      Cam.unify (.TypeVar i) (.TypeConst n) subs =
          Except.error "Cannot unify type variable with constant type" ∧
        Cam.unify (.TypeVar j) (.TypeConst n) subs = Except.ok subs := by
  intro subs i j n hi hj
  constructor
  · simp [Cam.unify, Cam.applySubsStep, hi, Cam.unifyVisit]
  · simp [Cam.unify, Cam.applySubsStep, hj]

/-- Witness for C6's amended statement at the concrete two-step chain
`{0 ↦ TypeVar 1, 1 ↦ Int}`. -/
theorem unify_single_step_witness :
    Cam.unify (.TypeVar 0) (.TypeConst "Int") [(0, .TypeVar 1), (1, .TypeConst "Int")] =
        Except.error "Cannot unify type variable with constant type" ∧
      Cam.unify (.TypeVar 1) (.TypeConst "Int") [(0, .TypeVar 1), (1, .TypeConst "Int")] =
        Except.ok [(0, .TypeVar 1), (1, .TypeConst "Int")] :=
  unify_applies_subs_single_step [(0, .TypeVar 1), (1, .TypeConst "Int")] 0 1 "Int" rfl rfl

/-- C7: under the typing context with `true : Bool` and `0 : Int`,
inferring `(lambda x:Bool. x) true` yields `Bool`, and inferring
`(lambda x:Bool. x) 0` fails with a type-mismatch error instead of
returning a type. -/
theorem infer_identity_and_mismatch :
    Cam.infer_type 10 Cam.apply_id Cam.test_context 0 = Except.ok (Cam.bool_type, 1) ∧
    Cam.infer_type 10 Cam.bad_apply Cam.test_context 0 =
      Except.error ("Type error in application: Type constant mismatch: Bool vs Int" ++
        "\nFunction type: (Bool -> Bool)\nArgument type: Int") := ⟨rfl, rfl⟩

/-- C8 counterexample: in the second machine, executing `ACCESS 1` in
the environment `[10, 32]` pushes `10` — the element at index 0 — not
`environment[1] = 32`, and raises no error: the index is silently
replaced by 0, refuting the claim at this concrete state. -/
theorem access_clamp_counterexample :
    CamNew2.step ⟨[(.ACCESS, 1)], [10, 32], [], []⟩ =
        Except.ok ⟨[], [10, 32], [], [10]⟩ ∧
      List.get? [(10 : Int), 32] 1 = some 32 ∧ (10 : Int) ≠ 32 :=
  ⟨rfl, rfl, by decide⟩

/-- C8 amended: in the first machine `ACCESS idx` pushes
`environment[idx]` when `0 ≤ idx < |environment|` and fails otherwise,
never clamping; in the second machine `ACCESS` ignores its index,
always pushes `environment[0]`, and fails only when the environment is
empty. -/
theorem access_actual_semantics :
    (∀ (s : CamNew.MachineState) (idx v : Int),
        0 ≤ idx → s.env_stack.get? idx.toNat = some v →
        CamNew.executeCommand s (.ACCESS, idx) =
          Except.ok { s with eval_stack := v :: s.eval_stack }) ∧
    (∀ (s : CamNew.MachineState) (idx : Int),
        idx < 0 ∨ (s.env_stack.length : Int) ≤ idx →
        okB (CamNew.executeCommand s (.ACCESS, idx)) = false) ∧
    (∀ (rest : List (CamNew2.CAMCommand × Int)) (a0 : Int) (A2 : List Int)
        (M : List (List (CamNew2.CAMCommand × Int) × List Int)) (S : List Int) (idx : Int),
        CamNew2.step ⟨(.ACCESS, idx) :: rest, a0 :: A2, M, S⟩ =
          Except.ok ⟨rest, a0 :: A2, M, a0 :: S⟩) ∧
    (∀ (rest : List (CamNew2.CAMCommand × Int))
        (M : List (List (CamNew2.CAMCommand × Int) × List Int)) (S : List Int) (idx : Int),
        CamNew2.step ⟨(.ACCESS, idx) :: rest, [], M, S⟩ =
          Except.error "Accessing variable in empty environment") := by
  refine ⟨?_, ?_, ?_, ?_⟩
  · intro s idx v h0 hv
    have hlt : idx.toNat < s.env_stack.length := by
      have hh := List.get?_eq_some.mp hv
      exact hh.choose
    have hcond : ¬ (idx < 0 ∨ (s.env_stack.length : Int) ≤ idx) := by
      push_neg
      refine ⟨by omega, ?_⟩
      omega
    simp only [CamNew.executeCommand, hcond, if_false, hv]
  · intro s idx h
    simp only [CamNew.executeCommand]
    rw [if_pos h]
    rfl
  · intro rest a0 A2 M S idx
    rfl
  · intro rest M S idx
    rfl

/-- Witness for C8's amended statement at the concrete environment
`[7, 9]` with indices 1 (in bounds) and 5 (out of bounds) in the first
machine. -/
theorem access_semantics_witness :
    CamNew.executeCommand ⟨[], [7, 9], [], []⟩ (.ACCESS, 1) =
        Except.ok ⟨[], [7, 9], [], [9]⟩ ∧
      okB (CamNew.executeCommand ⟨[], [7, 9], [], []⟩ (.ACCESS, 5)) = false := by
  constructor
  · exact access_actual_semantics.1 ⟨[], [7, 9], [], []⟩ 1 9 (by decide) rfl
  · exact access_actual_semantics.2.1 ⟨[], [7, 9], [], []⟩ 5 (Or.inr (by decide))

/-- C9: the first variant's compiler fails at compile time on any
variable whose de Bruijn index is at least the number of enclosing
binders, emits a plain `ACCESS idx` otherwise, and overall succeeds
exactly on well-scoped terms — an out-of-scope access is never emitted
or deferred to run time. -/
theorem compile_rejects_out_of_scope_access :
    (∀ (name : String) (idx d : Int), d ≤ idx →
        CamNew.compileTerm (.Variable name idx) d =
          Except.error "Variable access out of bounds during compilation") ∧
    (∀ (name : String) (idx d : Int), idx < d →
        CamNew.compileTerm (.Variable name idx) d = Except.ok [(.ACCESS, idx)]) ∧
    (∀ (t : CamNew.Term) (d : Int), okB (CamNew.compileTerm t d) = CamNew.scopeOK t d) := by
  refine ⟨?_, ?_, ?_⟩
  · intro name idx d h
    simp [CamNew.compileTerm, h]
  · intro name idx d h
    simp [CamNew.compileTerm, not_le.mpr h]
  · intro t
    induction t with
    | Variable name idx =>
        intro d
        by_cases h : idx ≥ d
        · simp [CamNew.compileTerm, CamNew.scopeOK, h, okB]
        · simp [CamNew.compileTerm, CamNew.scopeOK, h, okB]
          omega
    | Number v => intro d; rfl
    | Lambda p b ih =>
        intro d
        have hb := ih (d + 1)
        cases hc : CamNew.compileTerm b (d + 1) <;>
          simp [CamNew.compileTerm, CamNew.scopeOK, hc, okB, ← hb]
    | Application f a ihf iha =>
        intro d
        have hf := ihf d
        have ha := iha d
        cases hcf : CamNew.compileTerm f d <;> cases hca : CamNew.compileTerm a d <;>
          simp_all [CamNew.compileTerm, CamNew.scopeOK, okB]
    | BinaryOp op l r ihl ihr =>
        intro d
        have hl := ihl d
        have hr := ihr d
        cases hcl : CamNew.compileTerm l d <;> cases hcr : CamNew.compileTerm r d <;>
          simp_all [CamNew.compileTerm, CamNew.scopeOK, okB]

/-- Witness for C9 at concrete inputs: index 3 at depth 1 is rejected at
compile time, index 0 at depth 1 compiles to `ACCESS 0`. -/
theorem compile_scope_witness :
    CamNew.compileTerm (.Variable "x" 3) 1 =
        Except.error "Variable access out of bounds during compilation" ∧
      CamNew.compileTerm (.Variable "x" 0) 1 = Except.ok [(.ACCESS, 0)] :=
  ⟨compile_rejects_out_of_scope_access.1 "x" 3 1 (by decide),
   compile_rejects_out_of_scope_access.2.1 "x" 0 1 (by decide)⟩

/-- When `reduce` reports no reduction, it returns the original
expression unchanged. -/
theorem reduce_fst_of_not_reduced :
    ∀ (e : Cam.Expr), (Cam.reduce e).2 = false → (Cam.reduce e).1 = e := by
  intro e h
  cases e with
  | Constant name ty => rfl
  | Variable name ty => rfl
  | Lambda p pty b => rfl
  | Apply f a =>
      cases hf : Cam.reduce f with
      | mk nf rf =>
          cases rf with
          | true => simp [Cam.reduce, hf] at h
          | false =>
              cases nf with
              | Lambda p pty b => simp [Cam.reduce, hf] at h
              | Constant name ty =>
                  cases ha : Cam.reduce a with
                  | mk na ra =>
                      cases ra with
                      | true => simp [Cam.reduce, hf, ha] at h
                      | false => simp [Cam.reduce, hf, ha]
              | Variable name ty =>
                  cases ha : Cam.reduce a with
                  | mk na ra =>
                      cases ra with
                      | true => simp [Cam.reduce, hf, ha] at h
                      | false => simp [Cam.reduce, hf, ha]
              | Apply f2 a2 =>
                  cases ha : Cam.reduce a with
                  | mk na ra =>
                      cases ra with
                      | true => simp [Cam.reduce, hf, ha] at h
                      | false => simp [Cam.reduce, hf, ha]

/-- Whatever `normalize` returns is a fixed point of `reduce`. -/
theorem normalize_reaches_normal_form :
    ∀ (fuel : Nat) (e r : Cam.Expr), Cam.normalize fuel e = some r →
      Cam.reduce r = (r, false) := by
  intro fuel
  induction fuel with
  | zero => intro e r h; simp [Cam.normalize] at h
  | succ n ih =>
      intro e r h
      simp only [Cam.normalize] at h
      cases hr : Cam.reduce e with
      | mk e2 b =>
          rw [hr] at h
          cases b with
          | true => exact ih e2 r h
          | false =>
              have he2 : e2 = r := by simpa using h
              have hsnd : (Cam.reduce e).2 = false := by rw [hr]
              have hfst : (Cam.reduce e).1 = e := reduce_fst_of_not_reduced e hsnd
              have her : r = e := by
                rw [← he2]
                rw [hr] at hfst
                exact hfst
              rw [her, hr, he2, her]

/-- C10: whenever `normalize` terminates (returns within its fuel), its
result is a fixed point of `reduce` — `reduce` reports no further
reduction on it — and running `normalize` again on the result returns it
unchanged, so `normalize` is idempotent. -/
theorem normalize_idempotent :
    ∀ (fuel : Nat) (e r : Cam.Expr), Cam.normalize fuel e = some r →
      Cam.reduce r = (r, false) ∧ ∀ (fuel2 : Nat), Cam.normalize (fuel2 + 1) r = some r := by
  intro fuel e r h
  have hfix := normalize_reaches_normal_form fuel e r h
  refine ⟨hfix, ?_⟩
  intro fuel2
  simp [Cam.normalize, hfix]

/-- Witness for C10: `(lambda x:Bool. x) true` normalizes to the
constant `true`, which is a fixed point of `reduce` and of `normalize`. -/
theorem normalize_idempotent_witness :
    Cam.reduce (Cam.Expr.Constant "true" Cam.bool_type) =
        (Cam.Expr.Constant "true" Cam.bool_type, false) ∧
      Cam.normalize 1 (Cam.Expr.Constant "true" Cam.bool_type) =
        some (Cam.Expr.Constant "true" Cam.bool_type) := by
  have h := normalize_idempotent 3 Cam.apply_id (Cam.Expr.Constant "true" Cam.bool_type) rfl
  exact ⟨h.1, h.2 0⟩
